import Mathlib

/-!
# Verification model of the pgz storage engine boundary contract

The repository ships only the C boundary header `include/pgz.h`; the engine
core (page store, B-tree, WAL, transaction manager, cursor engine) is not in
the sources.  Following the specification, the engine core is modelled here:
keys and values are arbitrary byte strings ordered byte-lexicographically,
the committed B-tree root is modelled as a sorted association list, a
transaction carries a snapshot root and an ordered write set, commit pushes
the write set through the WAL and atomically publishes a new root, and a
cursor is a pure read over the snapshot.  The boundary status codes
`PGZ_OK`, `PGZ_ERR`, `PGZ_NOT_FOUND` come directly from the header.
-/

/-! ## Definitions -/

/-- A byte string: keys and values are arbitrary-length byte sequences. -/
abbrev Bytes := List Nat

/-- Modelled from the spec: the byte-lexicographic strict order on keys,
which the missing Ordered Index compares as raw byte sequences. -/
def bytesLt : Bytes → Bytes → Bool
  | [], [] => false
  | [], _ :: _ => true
  | _ :: _, [] => false
  | a :: as, b :: bs => if a < b then true else if b < a then false else bytesLt as bs

/-- Non-strict byte-lexicographic order. -/
def bytesLe (a b : Bytes) : Bool := ! bytesLt b a

/-- Modelled from the spec: the committed root of the missing Ordered Index
(B-tree), as an association list of key-value entries sorted strictly by
key; keys within the tree are strictly increasing. -/
abbrev Store := List (Bytes × Bytes)

/-- The sortedness invariant of a published root. -/
def Store.Sorted (s : Store) : Prop :=
  List.Pairwise (fun e1 e2 => bytesLt e1.1 e2.1 = true) s

/-- Modelled from the spec: the missing index operation
`lookup(root, key) -> value | NotFound`. -/
def Store.lookup : Store → Bytes → Option Bytes
  | [], _ => none
  | (k, v) :: rest, key => if k = key then some v else Store.lookup rest key

/-- Modelled from the spec: the missing copy-on-write index operation
`insert(root, key, value) -> newRoot`. -/
def Store.insert : Store → Bytes → Bytes → Store
  | [], key, val => [(key, val)]
  | (k, v) :: rest, key, val =>
    if bytesLt key k then (key, val) :: (k, v) :: rest
    else if key = k then (key, val) :: rest
    else (k, v) :: Store.insert rest key val

/-- Modelled from the spec: the missing index operation
`delete(root, key) -> newRoot | NotFound`; an absent key leaves the root
as is. -/
def Store.erase : Store → Bytes → Store
  | [], _ => []
  | (k, v) :: rest, key => if k = key then rest else (k, v) :: Store.erase rest key

/-- Modelled from the spec: the missing index operation
`seek(root, key) -> CursorState`, positioned at the first entry with key
at or above the sought key. -/
def Store.seek (s : Store) (key : Bytes) : List (Bytes × Bytes) :=
  s.dropWhile (fun e => bytesLt e.1 key)

/-- Modelled from the spec: the five kinds of the missing boundary error
taxonomy — `NotFound`, `IOError`, `Conflict`, `InvalidState`,
`Corruption`. -/
inductive ErrKind
  | notFound
  | ioError
  | conflict
  | invalidState
  | corruption
deriving DecidableEq, Repr

/-- Modelled from the spec: a write-set entry of the missing Transaction
Manager — a value to store or a tombstone. -/
inductive WriteOp
  | putOp (v : Bytes)
  | delOp
deriving DecidableEq, Repr

/-- Modelled from the spec: the missing per-transaction state machine,
`Active -> Committed` or `Active -> Aborted`, both terminal. -/
inductive TxnStatus
  | active
  | committed
  | aborted
deriving DecidableEq, Repr

/-- Modelled from the spec: the missing Transaction record — snapshot root
fixed at begin, accumulated write set, and status. -/
structure Txn where
  snapshot : Store
  writeSet : List (Bytes × WriteOp)
  status : TxnStatus
deriving DecidableEq, Repr

/-- Modelled from the spec: a record of the missing write-ahead log — one
transaction's committed write set plus the resulting new root reference,
with a durability mark; a record is flushed strictly before the root
pointer is published, and on crash only fully-flushed records count. -/
structure WalRecord where
  txnId : Nat
  writeSet : List (Bytes × WriteOp)
  newRoot : Store
  flushed : Bool
deriving DecidableEq, Repr

/-- Modelled from the spec: the missing Database root handle — published
committed root plus the write-ahead log. -/
structure DB where
  root : Store
  wal : List WalRecord
deriving DecidableEq, Repr

/-- Modelled from the spec: the missing engine shared state — the database
and the transactions indexed by id. -/
structure World where
  db : DB
  txns : Nat → Option Txn

/-- Lookup in a write set: the last entry for a key shadows earlier ones. -/
def wsLookup (ws : List (Bytes × WriteOp)) (k : Bytes) : Option WriteOp :=
  (ws.reverse.find? (fun e => e.1 = k)).map (fun e => e.2)

/-- Apply one write-set entry to a root (copy-on-write). -/
def applyOp (s : Store) : Bytes × WriteOp → Store
  | (k, WriteOp.putOp v) => Store.insert s k v
  | (k, WriteOp.delOp) => Store.erase s k

/-- Modelled from the spec: step 2 of the missing commit pipeline — apply a
whole write set to a root, producing the candidate new root. -/
def applyWriteSet (s : Store) (ws : List (Bytes × WriteOp)) : Store :=
  ws.foldl applyOp s

/-- Modelled from the spec: the missing recovery operation
`replay() -> CommittedRoot` — recover the latest durable root, falling
back to the pre-crash root when no fully-flushed record exists. -/
def replay (root : Store) (log : List WalRecord) : Store :=
  log.foldl (fun acc r => if r.flushed then r.newRoot else acc) root

/-- Modelled from the spec: the boundary operations driving the missing
engine core.  `commitTxn` carries the outcome of the WAL flush as an
oracle, so that step-3 flush failure is expressible. -/
inductive Op
  | beginTxn (tid : Nat)
  | put (tid : Nat) (k v : Bytes)
  | del (tid : Nat) (k : Bytes)
  | commitTxn (tid : Nat) (flushOk : Bool)
  | abortTxn (tid : Nat)
deriving DecidableEq, Repr

/-- The transaction id an operation acts on. -/
def opTid : Op → Nat
  | Op.beginTxn tid => tid
  | Op.put tid _ _ => tid
  | Op.del tid _ => tid
  | Op.commitTxn tid _ => tid
  | Op.abortTxn tid => tid

/-- Point update of the transaction table. -/
def setTxn (f : Nat → Option Txn) (tid : Nat) (t : Txn) : Nat → Option Txn :=
  fun u => if u = tid then some t else f u

/-- Modelled from the spec: one step of the missing engine core, together
with the error it reports, if any.  Begin takes a snapshot of the most
recently published root; put/delete append to the write set of an active
transaction; commit applies the write set, appends a WAL record, flushes,
and on success atomically publishes the candidate root, while a flush
failure aborts the transaction and leaves the root unchanged, reporting
`IOError`; abort discards the write set; operating on a missing or
terminal handle fails with `InvalidState` and has no effect. -/
def World.stepE (s : World) : Op → World × Option ErrKind
  | Op.beginTxn tid =>
    ({ s with txns := setTxn s.txns tid ⟨s.db.root, [], TxnStatus.active⟩ }, none)
  | Op.put tid k v =>
    match s.txns tid with
    | some txn =>
      if txn.status = TxnStatus.active then
        let txn2 : Txn := ⟨txn.snapshot, txn.writeSet ++ [(k, WriteOp.putOp v)], txn.status⟩
        ({ s with txns := setTxn s.txns tid txn2 }, none)
      else (s, some ErrKind.invalidState)
    | none => (s, some ErrKind.invalidState)
  | Op.del tid k =>
    match s.txns tid with
    | some txn =>
      if txn.status = TxnStatus.active then
        let txn2 : Txn := ⟨txn.snapshot, txn.writeSet ++ [(k, WriteOp.delOp)], txn.status⟩
        ({ s with txns := setTxn s.txns tid txn2 }, none)
      else (s, some ErrKind.invalidState)
    | none => (s, some ErrKind.invalidState)
  | Op.commitTxn tid flushOk =>
    match s.txns tid with
    | some txn =>
      if txn.status = TxnStatus.active then
        let candidate := applyWriteSet txn.snapshot txn.writeSet
        if flushOk then
          let txn2 : Txn := ⟨txn.snapshot, txn.writeSet, TxnStatus.committed⟩
          (⟨⟨candidate, s.db.wal ++ [⟨tid, txn.writeSet, candidate, true⟩]⟩, setTxn s.txns tid txn2⟩, none)
        else
          let txn2 : Txn := ⟨txn.snapshot, txn.writeSet, TxnStatus.aborted⟩
          (⟨⟨s.db.root, s.db.wal ++ [⟨tid, txn.writeSet, candidate, false⟩]⟩, setTxn s.txns tid txn2⟩, some ErrKind.ioError)
      else (s, some ErrKind.invalidState)
    | none => (s, some ErrKind.invalidState)
  | Op.abortTxn tid =>
    match s.txns tid with
    | some txn =>
      if txn.status = TxnStatus.active then
        let txn2 : Txn := ⟨txn.snapshot, txn.writeSet, TxnStatus.aborted⟩
        ({ s with txns := setTxn s.txns tid txn2 }, none)
      else (s, some ErrKind.invalidState)
    | none => (s, some ErrKind.invalidState)

/-- One engine step, discarding the reported error. -/
def World.step (s : World) (op : Op) : World := (World.stepE s op).1

/-- Modelled from the spec: the missing `get` within a transaction —
read-your-own-writes against the write set, then the snapshot root; a
tombstone or an absent key reports `NotFound`. -/
def World.get (s : World) (tid : Nat) (k : Bytes) : Except ErrKind Bytes :=
  match s.txns tid with
  | none => Except.error ErrKind.invalidState
  | some txn =>
    if txn.status = TxnStatus.active then
      match wsLookup txn.writeSet k with
      | some (WriteOp.putOp v) => Except.ok v
      | some WriteOp.delOp => Except.error ErrKind.notFound
      | none =>
        match Store.lookup txn.snapshot k with
        | some v => Except.ok v
        | none => Except.error ErrKind.notFound
    else Except.error ErrKind.invalidState

/-- Modelled from the spec: cursor lifecycle state of the missing
Cursor/Iterator Engine — live traversal, permanent exhaustion, explicit
close. -/
inductive CursorState
  | live
  | exhausted
  | closed
deriving DecidableEq, Repr

/-- Modelled from the spec: the missing Cursor — the remaining traversal of
the snapshot from the seek position, the exclusive end key (empty means
unbounded), and the lifecycle state; a cursor is bound to one
transaction's snapshot root and is a pure read over it. -/
structure Cursor where
  entries : List (Bytes × Bytes)
  endKey : Bytes
  state : CursorState
deriving DecidableEq, Repr

/-- Is a key inside the exclusive end bound?  An empty end key means the
scan is unbounded (the spec: `endKey` is an exclusive upper bound, an
empty/absent end key means unbounded). -/
def inEnd (endk k : Bytes) : Bool := endk.isEmpty || bytesLt k endk

/-- Result of one cursor advance. -/
inductive IterResult
  | ok (k v : Bytes)
  | exhausted
  | err (e : ErrKind)
deriving DecidableEq, Repr

/-- Modelled from the spec: the missing cursor advance `next` — it yields
pairs in strictly increasing key order; once a key at or beyond a nonempty
endKey would be yielded the cursor reports `Exhausted` and stays
exhausted; calling `next` after `close` or after `Exhausted` is a
programming error and fails with `InvalidState`. -/
def iterNext (c : Cursor) : Cursor × IterResult :=
  match c.state with
  | CursorState.closed => (c, IterResult.err ErrKind.invalidState)
  | CursorState.exhausted => (c, IterResult.err ErrKind.invalidState)
  | CursorState.live =>
    match c.entries with
    | [] => (⟨[], c.endKey, CursorState.exhausted⟩, IterResult.exhausted)
    | (k, v) :: rest =>
      if inEnd c.endKey k then (⟨rest, c.endKey, CursorState.live⟩, IterResult.ok k v)
      else (⟨c.entries, c.endKey, CursorState.exhausted⟩, IterResult.exhausted)

/-- Modelled from the spec: the missing `close(cursor)`, which releases
traversal state. -/
def iterClose (c : Cursor) : Cursor := ⟨c.entries, c.endKey, CursorState.closed⟩

/-- Modelled from the spec: the missing `scan(txn, startKey, endKey)` —
positions at the first key at or above startKey within the transaction's
snapshot root. -/
def scanTxn (txn : Txn) (start endk : Bytes) : Option Cursor :=
  if txn.status = TxnStatus.active then
    some ⟨Store.seek txn.snapshot start, endk, CursorState.live⟩
  else none

/-- Range scan at the world level. -/
def World.scan (s : World) (tid : Nat) (start endk : Bytes) : Option Cursor :=
  match s.txns tid with
  | some txn => scanTxn txn start endk
  | none => none

/-- Drain a cursor by successive `iterNext` calls, with fuel bounding the
number of calls; yields the key-value pairs in order. -/
def collectIter : Nat → Cursor → List (Bytes × Bytes)
  | 0, _ => []
  | n + 1, c =>
    match iterNext c with
    | (c2, IterResult.ok k v) => (k, v) :: collectIter n c2
    | _ => []

/-- Success status code of the C boundary (`include/pgz.h`). -/
def PGZ_OK : Int := 0

/-- Generic-error status code of the C boundary (`include/pgz.h`). -/
def PGZ_ERR : Int := -1

/-- Key-not-found status code of the C boundary (`include/pgz.h`), also
used by `pgz_iter_next` for iterator exhaustion. -/
def PGZ_NOT_FOUND : Int := 1

/-- Status code and output buffer of `pgz_get`: `PGZ_OK` with the value,
`PGZ_NOT_FOUND` when the key does not exist, `PGZ_ERR` otherwise
(`include/pgz.h`). -/
def pgz_get (s : World) (tid : Nat) (k : Bytes) : Int × Option Bytes :=
  match World.get s tid k with
  | Except.ok v => (PGZ_OK, some v)
  | Except.error ErrKind.notFound => (PGZ_NOT_FOUND, none)
  | Except.error _ => (PGZ_ERR, none)

/-- Status code of `pgz_put`: `PGZ_OK` on success, `PGZ_ERR` on failure
(`include/pgz.h`). -/
def pgz_put (s : World) (tid : Nat) (k v : Bytes) : Int :=
  match (World.stepE s (Op.put tid k v)).2 with
  | none => PGZ_OK
  | some _ => PGZ_ERR

/-- Status code of `pgz_delete`: `PGZ_OK` on success, `PGZ_ERR` on failure
(`include/pgz.h`). -/
def pgz_delete (s : World) (tid : Nat) (k : Bytes) : Int :=
  match (World.stepE s (Op.del tid k)).2 with
  | none => PGZ_OK
  | some _ => PGZ_ERR

/-- Status code of `pgz_txn_commit`: `PGZ_OK` on success, `PGZ_ERR` on
failure (`include/pgz.h`). -/
def pgz_txn_commit (s : World) (tid : Nat) (flushOk : Bool) : Int :=
  match (World.stepE s (Op.commitTxn tid flushOk)).2 with
  | none => PGZ_OK
  | some _ => PGZ_ERR

/-- Advanced cursor and status code of `pgz_iter_next`: `PGZ_OK` with the
next pair, `PGZ_NOT_FOUND` on exhaustion, `PGZ_ERR` on error
(`include/pgz.h`). -/
def pgz_iter_next (c : Cursor) : Cursor × Int :=
  match iterNext c with
  | (c2, IterResult.ok _ _) => (c2, PGZ_OK)
  | (c2, IterResult.exhausted) => (c2, PGZ_NOT_FOUND)
  | (c2, IterResult.err _) => (c2, PGZ_ERR)

/-- `get` against a bare root, as a fresh transaction would see it. -/
def lookupExcept (root : Store) (k : Bytes) : Except ErrKind Bytes :=
  match Store.lookup root k with
  | some v => Except.ok v
  | none => Except.error ErrKind.notFound

/-- Is an operation a put or a delete? -/
def isPutOrDel : Op → Bool
  | Op.put _ _ _ => true
  | Op.del _ _ => true
  | _ => false

/-- The range predicate of a scan: at or above the start key and inside the
(possibly unbounded) exclusive end bound. -/
def inRange (start endk k : Bytes) : Bool := bytesLe start k && inEnd endk k

/-- The empty engine world: empty committed root, empty WAL, no
transactions. -/
def W0 : World := ⟨⟨[], []⟩, fun _ => none⟩

/-- A world with one freshly begun (active) transaction, id 0. -/
def W1 : World := World.step W0 (Op.beginTxn 0)

/-- A world whose transaction 0 has committed and is now terminal. -/
def Wc : World := World.step W1 (Op.commitTxn 0 true)

/-- A concrete active transaction whose snapshot holds the single pair
("a", "1"). -/
def txn0 : Txn := ⟨[([97], [49])], [], TxnStatus.active⟩

/-- The cursor scanning txn0's snapshot over the range from "" to "b". -/
def c0 : Cursor := ⟨[([97], [49])], [98], CursorState.live⟩

/-- The cursor scanning txn0's snapshot with an empty (unbounded) end
key. -/
def cU : Cursor := ⟨[([97], [49])], [], CursorState.live⟩

/-- A live cursor whose first pending key "b" is already beyond the end
key "a". -/
def cB : Cursor := ⟨[([98], [50])], [97], CursorState.live⟩

/-- An exhausted cursor. -/
def cX : Cursor := ⟨[], [], CursorState.exhausted⟩

/-- A closed cursor. -/
def cC : Cursor := ⟨[], [], CursorState.closed⟩

/-- A live cursor with no remaining entries. -/
def cL : Cursor := ⟨[], [], CursorState.live⟩

/-- A concurrent writer's trace: begin, put ("a", "1"), commit. -/
def ops0 : List Op := [Op.beginTxn 1, Op.put 1 [97] [49], Op.commitTxn 1 true]

/-- Puts and deletes of transaction 3, later aborted. -/
def ops1 : List Op := [Op.put 3 [97] [49], Op.del 3 [98]]

/-! ## Theorems -/

/-- The byte-lexicographic order is irreflexive. -/
theorem bytesLt_irrefl (a : Bytes) : bytesLt a a = false := by
  induction a with
  | nil => rfl
  | cons x xs ih => simp [bytesLt, ih]

/-- The byte-lexicographic order is transitive. -/
theorem bytesLt_trans {a b c : Bytes} (hab : bytesLt a b = true)
    (hbc : bytesLt b c = true) : bytesLt a c = true := by
  induction a generalizing b c with
  | nil =>
    cases b with
    | nil => simp [bytesLt] at hab
    | cons y ys =>
      cases c with
      | nil => simp [bytesLt] at hbc
      | cons z zs => rfl
  | cons x xs ih =>
    cases b with
    | nil => simp [bytesLt] at hab
    | cons y ys =>
      cases c with
      | nil => simp [bytesLt] at hbc
      | cons z zs =>
        simp only [bytesLt] at hab hbc ⊢
        split_ifs at hab hbc ⊢ with h1 h2 h3 h4 h5 h6
        all_goals first
          | rfl
          | omega
          | (exact ih hab hbc)

/-- Looking up a key right after inserting it returns the inserted value. -/
theorem Store.lookup_insert (s : Store) (k v : Bytes) :
    Store.lookup (Store.insert s k v) k = some v := by
  induction s with
  | nil => simp [Store.insert, Store.lookup]
  | cons e rest ih =>
    obtain ⟨k0, v0⟩ := e
    simp only [Store.insert]
    split_ifs with h1 h2
    · simp [Store.lookup]
    · simp [Store.lookup]
    · simp only [Store.lookup]
      split_ifs with h3
      · exact absurd h3.symm h2
      · exact ih

/-- Reading back the transaction just written. -/
theorem setTxn_self (f : Nat → Option Txn) (tid : Nat) (t : Txn) :
    setTxn f tid t tid = some t := by simp [setTxn]

/-- Updating one transaction leaves the others unchanged. -/
theorem setTxn_ne (f : Nat → Option Txn) (tid : Nat) (t : Txn) {u : Nat}
    (h : u ≠ tid) : setTxn f tid t u = f u := by simp [setTxn, h]

/-- A step by one transaction never touches another transaction's record. -/
theorem stepE_txns_ne (s : World) (op : Op) {u : Nat} (h : u ≠ opTid op) :
    ((World.stepE s op).1).txns u = s.txns u := by
  cases op with
  | beginTxn tid =>
    simp only [opTid] at h
    simp [World.stepE, setTxn_ne _ _ _ h]
  | put tid k v =>
    simp only [opTid] at h
    cases hx : s.txns tid with
    | none => simp [World.stepE, hx]
    | some txn =>
      by_cases hs : txn.status = TxnStatus.active
      · simp [World.stepE, hx, hs, setTxn_ne _ _ _ h]
      · simp [World.stepE, hx, hs]
  | del tid k =>
    simp only [opTid] at h
    cases hx : s.txns tid with
    | none => simp [World.stepE, hx]
    | some txn =>
      by_cases hs : txn.status = TxnStatus.active
      · simp [World.stepE, hx, hs, setTxn_ne _ _ _ h]
      · simp [World.stepE, hx, hs]
  | commitTxn tid flushOk =>
    simp only [opTid] at h
    cases hx : s.txns tid with
    | none => simp [World.stepE, hx]
    | some txn =>
      by_cases hs : txn.status = TxnStatus.active
      · cases flushOk with
        | true => simp [World.stepE, hx, hs, setTxn_ne _ _ _ h]
        | false => simp [World.stepE, hx, hs, setTxn_ne _ _ _ h]
      · simp [World.stepE, hx, hs]
  | abortTxn tid =>
    simp only [opTid] at h
    cases hx : s.txns tid with
    | none => simp [World.stepE, hx]
    | some txn =>
      by_cases hs : txn.status = TxnStatus.active
      · simp [World.stepE, hx, hs, setTxn_ne _ _ _ h]
      · simp [World.stepE, hx, hs]

/-- A step by one transaction never touches another transaction's record. -/
theorem step_txns_ne (s : World) (op : Op) {u : Nat} (h : u ≠ opTid op) :
    (World.step s op).txns u = s.txns u := stepE_txns_ne s op h

/-- A trace of steps by other transactions never touches this
transaction's record. -/
theorem foldl_step_txns_ne (ops : List Op) (s : World) {u : Nat}
    (h : ∀ op ∈ ops, opTid op ≠ u) :
    (ops.foldl World.step s).txns u = s.txns u := by
  induction ops generalizing s with
  | nil => rfl
  | cons op rest ih =>
    have h1 : opTid op ≠ u := h op (List.mem_cons_self op rest)
    have h2 : ∀ o ∈ rest, opTid o ≠ u := fun o ho => h o (List.mem_cons_of_mem op ho)
    calc ((op :: rest).foldl World.step s).txns u
        = (rest.foldl World.step (World.step s op)).txns u := rfl
      _ = (World.step s op).txns u := ih (World.step s op) h2
      _ = s.txns u := step_txns_ne s op (Ne.symm h1)

/-- put, delete, begin and abort never touch the database (root or WAL). -/
theorem stepE_db_eq (s : World) (op : Op)
    (h : ∀ tid f, op ≠ Op.commitTxn tid f) :
    ((World.stepE s op).1).db = s.db := by
  cases op with
  | beginTxn tid => rfl
  | put tid k v =>
    cases hx : s.txns tid with
    | none => simp [World.stepE, hx]
    | some txn =>
      by_cases hs : txn.status = TxnStatus.active
      · simp [World.stepE, hx, hs]
      · simp [World.stepE, hx, hs]
  | del tid k =>
    cases hx : s.txns tid with
    | none => simp [World.stepE, hx]
    | some txn =>
      by_cases hs : txn.status = TxnStatus.active
      · simp [World.stepE, hx, hs]
      · simp [World.stepE, hx, hs]
  | commitTxn tid f => exact absurd rfl (h tid f)
  | abortTxn tid =>
    cases hx : s.txns tid with
    | none => simp [World.stepE, hx]
    | some txn =>
      by_cases hs : txn.status = TxnStatus.active
      · simp [World.stepE, hx, hs]
      · simp [World.stepE, hx, hs]

/-- A trace of puts and deletes never touches the database. -/
theorem foldl_step_db_eq (ops : List Op) (s : World)
    (h : ∀ op ∈ ops, isPutOrDel op = true) :
    (ops.foldl World.step s).db = s.db := by
  induction ops generalizing s with
  | nil => rfl
  | cons op rest ih =>
    have h1 : isPutOrDel op = true := h op (List.mem_cons_self op rest)
    have h2 : ∀ o ∈ rest, isPutOrDel o = true := fun o ho => h o (List.mem_cons_of_mem op ho)
    have hnc : ∀ tid f, op ≠ Op.commitTxn tid f := by
      intro tid f he
      subst he
      simp [isPutOrDel] at h1
    calc ((op :: rest).foldl World.step s).db
        = (rest.foldl World.step (World.step s op)).db := rfl
      _ = (World.step s op).db := ih (World.step s op) h2
      _ = s.db := stepE_db_eq s op hnc

/-- A freshly begun transaction reads exactly the published root. -/
theorem get_begin_fresh (s : World) (r : Nat) (k : Bytes) :
    World.get (World.step s (Op.beginTxn r)) r k = lookupExcept s.db.root k := by
  simp only [World.step, World.stepE, World.get, setTxn_self, wsLookup, lookupExcept,
    List.reverse_nil, List.find?_nil, Option.map_none']
  rfl

/-- Draining a live cursor with enough fuel yields exactly the prefix of
its entries below the end bound. -/
theorem collectIter_live (endk : Bytes) (entries : List (Bytes × Bytes)) (fuel : Nat)
    (h : entries.length ≤ fuel) :
    collectIter fuel ⟨entries, endk, CursorState.live⟩
      = entries.takeWhile (fun e => inEnd endk e.1) := by
  induction entries generalizing fuel with
  | nil =>
    cases fuel with
    | zero => rfl
    | succ n => simp [collectIter, iterNext, List.takeWhile]
  | cons e rest ih =>
    obtain ⟨k, v⟩ := e
    cases fuel with
    | zero => simp at h
    | succ n =>
      have hn : rest.length ≤ n := by simpa using h
      by_cases hq : inEnd endk k = true
      · simp [collectIter, iterNext, hq, List.takeWhile_cons, ih n hn]
      · simp only [Bool.not_eq_true] at hq
        simp [collectIter, iterNext, hq, List.takeWhile_cons]

/-- On a list sorted strictly by key, `takeWhile` with a predicate closed
downward along the order equals `filter`. -/
theorem takeWhile_eq_filter_sorted (q : Bytes × Bytes → Bool) (l : List (Bytes × Bytes))
    (hl : Store.Sorted l)
    (hq : ∀ a b : Bytes × Bytes, bytesLt a.1 b.1 = true → q b = true → q a = true) :
    l.takeWhile q = l.filter q := by
  induction l with
  | nil => rfl
  | cons e rest ih =>
    rw [Store.Sorted, List.pairwise_cons] at hl
    obtain ⟨h1, h2⟩ := hl
    by_cases hq0 : q e = true
    · simp [List.takeWhile_cons, List.filter_cons, hq0, ih h2]
    · simp only [Bool.not_eq_true] at hq0
      have hrest : rest.filter q = [] := by
        rw [List.filter_eq_nil_iff]
        intro x hx hqx
        have := hq e x (h1 x hx) hqx
        simp [hq0] at this
      simp [List.takeWhile_cons, List.filter_cons, hq0, hrest]

/-- On a list sorted strictly by key, `dropWhile` with a predicate closed
downward along the order equals filtering with its negation. -/
theorem dropWhile_eq_filter_sorted (p : Bytes × Bytes → Bool) (l : List (Bytes × Bytes))
    (hl : Store.Sorted l)
    (hp : ∀ a b : Bytes × Bytes, bytesLt a.1 b.1 = true → p b = true → p a = true) :
    l.dropWhile p = l.filter (fun e => ! p e) := by
  induction l with
  | nil => rfl
  | cons e rest ih =>
    rw [Store.Sorted, List.pairwise_cons] at hl
    obtain ⟨h1, h2⟩ := hl
    by_cases hp0 : p e = true
    · simp [List.dropWhile_cons, List.filter_cons, hp0, ih h2]
    · simp only [Bool.not_eq_true] at hp0
      have hrest : rest.filter (fun e => ! p e) = rest := by
        rw [List.filter_eq_self]
        intro x hx
        cases hpx : p x with
        | false => simp
        | true =>
          have := hp e x (h1 x hx) hpx
          simp [hp0] at this
      simp [List.dropWhile_cons, List.filter_cons, hp0, hrest]

/-- Characterization of a full scan: with enough fuel, draining the cursor
built by seeking a sorted snapshot yields exactly the snapshot entries
whose keys lie in the requested range, in snapshot order. -/
theorem scan_drain_eq_filter (snap : Store) (start endk : Bytes) (fuel : Nat)
    (hs : Store.Sorted snap) (hfuel : (Store.seek snap start).length ≤ fuel) :
    collectIter fuel ⟨Store.seek snap start, endk, CursorState.live⟩
      = snap.filter (fun e => inRange start endk e.1) := by
  have hseek : Store.seek snap start = snap.filter (fun e => ! bytesLt e.1 start) := by
    apply dropWhile_eq_filter_sorted _ _ hs
    intro a b hab hb
    exact bytesLt_trans hab hb
  have hsorted2 : Store.Sorted (snap.filter (fun e => ! bytesLt e.1 start)) :=
    hs.filter _
  rw [collectIter_live _ _ _ hfuel, hseek]
  rw [takeWhile_eq_filter_sorted _ _ hsorted2]
  · rw [List.filter_filter]
    apply List.filter_congr
    intro e he
    simp [inRange, inEnd, bytesLe, Bool.and_comm]
  · intro a b hab hb
    simp only [inEnd, Bool.or_eq_true] at hb ⊢
    cases hb with
    | inl h => exact Or.inl h
    | inr h => exact Or.inr (bytesLt_trans hab h)

/-- C1: for every key and value, each an arbitrary byte string (including
the empty key and the empty value), putting the pair in a transaction,
committing it, and getting the key in a freshly begun transaction returns
OK with a value byte-for-byte equal to the one put. -/
theorem spec_C1 (s : World) (k v : Bytes) (w r : Nat) :
    World.get
      (World.step
        (World.step (World.step (World.step s (Op.beginTxn w)) (Op.put w k v))
          (Op.commitTxn w true))
        (Op.beginTxn r)) r k = Except.ok v := by
  simp [World.step, World.stepE, World.get, setTxn, wsLookup, applyWriteSet, applyOp,
    Store.lookup_insert]

/-- C2: a reader transaction begun before any later operations of other
transactions (including a concurrent writer's put, delete and successful
commit) keeps its view fixed at the root published at the instant it
began: its transaction record, every `get` and every `scan` are unchanged
by those operations for its entire lifetime, so it never observes the
writer's changes. -/
theorem spec_C2 (s : World) (rt : Nat) (ops : List Op) (k start endk : Bytes)
    (h : ∀ op ∈ ops, opTid op ≠ rt) :
    (ops.foldl World.step (World.step s (Op.beginTxn rt))).txns rt
        = some ⟨s.db.root, [], TxnStatus.active⟩
    ∧ World.get (ops.foldl World.step (World.step s (Op.beginTxn rt))) rt k
        = lookupExcept s.db.root k
    ∧ World.scan (ops.foldl World.step (World.step s (Op.beginTxn rt))) rt start endk
        = some ⟨Store.seek s.db.root start, endk, CursorState.live⟩ := by
  have h0 : (World.step s (Op.beginTxn rt)).txns rt
      = some ⟨s.db.root, [], TxnStatus.active⟩ := by
    simp [World.step, World.stepE, setTxn_self]
  have hfix : (ops.foldl World.step (World.step s (Op.beginTxn rt))).txns rt
      = some ⟨s.db.root, [], TxnStatus.active⟩ := by
    rw [foldl_step_txns_ne ops _ h, h0]
  refine ⟨hfix, ?_, ?_⟩
  · simp only [World.get, hfix]
    cases hk : Store.lookup s.db.root k <;> simp [wsLookup, lookupExcept, hk]
  · simp only [World.scan, hfix]
    simp [scanTxn]

/-- C4: any sequence of puts and deletes inside a transaction that is then
aborted leaves the database untouched, and a `get` in a freshly begun
transaction afterwards returns exactly what it would have returned against
the state from before the aborted transaction began — abort has no
observable effect on committed state. -/
theorem spec_C4 (s : World) (w r : Nat) (k : Bytes) (ops : List Op)
    (hops : ∀ op ∈ ops, isPutOrDel op = true ∧ opTid op = w) :
    (World.step (ops.foldl World.step (World.step s (Op.beginTxn w))) (Op.abortTxn w)).db
        = s.db
    ∧ World.get
        (World.step
          (World.step (ops.foldl World.step (World.step s (Op.beginTxn w))) (Op.abortTxn w))
          (Op.beginTxn r)) r k
        = World.get (World.step s (Op.beginTxn r)) r k := by
  have h1 : (World.step s (Op.beginTxn w)).db = s.db := rfl
  have h2 : (ops.foldl World.step (World.step s (Op.beginTxn w))).db
      = (World.step s (Op.beginTxn w)).db :=
    foldl_step_db_eq ops _ (fun op ho => (hops op ho).1)
  have h3 : (World.step (ops.foldl World.step (World.step s (Op.beginTxn w)))
      (Op.abortTxn w)).db = (ops.foldl World.step (World.step s (Op.beginTxn w))).db :=
    stepE_db_eq _ _ (by intro tid f hne; exact Op.noConfusion hne)
  have hdb : (World.step (ops.foldl World.step (World.step s (Op.beginTxn w)))
      (Op.abortTxn w)).db = s.db := by rw [h3, h2, h1]
  refine ⟨hdb, ?_⟩
  rw [get_begin_fresh, get_begin_fresh, hdb]

/-- C5: when the WAL flush of commit step 3 fails, commit reports IOError,
the transaction is aborted, the published root pointer is unchanged, and
the durable state recovered by replay is unchanged — the last-committed
state remains intact. -/
theorem spec_C5 (s : World) (tid : Nat) (txn : Txn)
    (hx : s.txns tid = some txn) (ha : txn.status = TxnStatus.active) :
    (World.stepE s (Op.commitTxn tid false)).2 = some ErrKind.ioError
    ∧ ((World.stepE s (Op.commitTxn tid false)).1).db.root = s.db.root
    ∧ ((World.stepE s (Op.commitTxn tid false)).1).txns tid
        = some ⟨txn.snapshot, txn.writeSet, TxnStatus.aborted⟩
    ∧ ∀ fb, replay fb ((World.stepE s (Op.commitTxn tid false)).1).db.wal
        = replay fb s.db.wal := by
  refine ⟨?_, ?_, ?_, ?_⟩
  · simp [World.stepE, hx, ha]
  · simp [World.stepE, hx, ha]
  · simp [World.stepE, hx, ha, setTxn_self]
  · intro fb
    simp [World.stepE, hx, ha, replay, List.foldl_append]

/-- C9: write-ahead-log replay is idempotent — replaying a log twice
against the same pre-crash root yields the same final root as replaying it
once. -/
theorem spec_C9 (root : Store) (log : List WalRecord) :
    replay (replay root log) log = replay root log := by
  induction log generalizing root with
  | nil => rfl
  | cons r rest ih =>
    by_cases hf : r.flushed
    · simp [replay, List.foldl_cons, hf]
    · simp only [replay, List.foldl_cons, hf, if_neg, Bool.not_eq_true] at ih ⊢
      exact ih root

/-- C3 (amended): draining the cursor returned by `scan(start, end)` over a
sorted snapshot by successive `iterNext` calls yields keys in strictly
increasing byte-lexicographic order with no duplicates; every yielded
entry comes from the snapshot with its key ≥ start and inside the end
bound, and no snapshot entry in that range is omitted — where an empty end
key is an unbounded scan and a nonempty end key is a strict (exclusive)
upper bound. -/
theorem spec_C3 (txn : Txn) (start endk : Bytes) (c : Cursor) (fuel : Nat)
    (hs : Store.Sorted txn.snapshot)
    (hscan : scanTxn txn start endk = some c)
    (hfuel : c.entries.length ≤ fuel) :
    List.Pairwise (fun k1 k2 : Bytes => bytesLt k1 k2 = true)
      ((collectIter fuel c).map Prod.fst)
    ∧ ((collectIter fuel c).map Prod.fst).Nodup
    ∧ (∀ e ∈ collectIter fuel c,
        e ∈ txn.snapshot ∧ bytesLe start e.1 = true ∧ inEnd endk e.1 = true)
    ∧ (∀ e ∈ txn.snapshot,
        bytesLe start e.1 = true → inEnd endk e.1 = true → e ∈ collectIter fuel c) := by
  have hactive : txn.status = TxnStatus.active := by
    by_contra hc
    simp [scanTxn, hc] at hscan
  have hc : c = ⟨Store.seek txn.snapshot start, endk, CursorState.live⟩ := by
    simp [scanTxn, hactive] at hscan
    exact hscan.symm
  subst hc
  have hdrain := scan_drain_eq_filter txn.snapshot start endk fuel hs hfuel
  rw [hdrain]
  have hpair : List.Pairwise (fun e1 e2 : Bytes × Bytes => bytesLt e1.1 e2.1 = true)
      (txn.snapshot.filter (fun e => inRange start endk e.1)) := hs.filter _
  refine ⟨?_, ?_, ?_, ?_⟩
  · rw [List.pairwise_map]
    exact hpair
  · have h2 : List.Pairwise (fun a b : Bytes × Bytes => a.1 ≠ b.1)
        (txn.snapshot.filter (fun e => inRange start endk e.1)) := by
      refine hpair.imp ?_
      intro a b h heq
      rw [heq, bytesLt_irrefl] at h
      exact Bool.false_ne_true h
    show List.Pairwise (fun a b => a ≠ b) _
    exact List.pairwise_map.mpr h2
  · intro e he
    rw [List.mem_filter] at he
    obtain ⟨hmem, hrange⟩ := he
    simp only [inRange, Bool.and_eq_true] at hrange
    exact ⟨hmem, hrange.1, hrange.2⟩
  · intro e hmem h1 h2
    rw [List.mem_filter]
    exact ⟨hmem, by simp [inRange, h1, h2]⟩

/-- C6: the boundary error taxonomy has exactly the five pairwise-distinct
kinds NotFound, IOError, Conflict, InvalidState, Corruption, and no
operation exposes a partial-success state: whenever a step reports an
error, the published root and the durable state recovered by replay are
unchanged, and a failed put or delete leaves the world entirely
unchanged. -/
theorem spec_C6 :
    (∀ e : ErrKind, e = ErrKind.notFound ∨ e = ErrKind.ioError ∨ e = ErrKind.conflict
      ∨ e = ErrKind.invalidState ∨ e = ErrKind.corruption)
    ∧ [ErrKind.notFound, ErrKind.ioError, ErrKind.conflict, ErrKind.invalidState,
        ErrKind.corruption].Nodup
    ∧ (∀ (s : World) (op : Op) (e : ErrKind), (World.stepE s op).2 = some e →
        ((World.stepE s op).1).db.root = s.db.root
        ∧ ∀ fb, replay fb ((World.stepE s op).1).db.wal = replay fb s.db.wal)
    ∧ (∀ (s : World) (tid : Nat) (k v : Bytes) (e : ErrKind),
        (World.stepE s (Op.put tid k v)).2 = some e → (World.stepE s (Op.put tid k v)).1 = s)
    ∧ (∀ (s : World) (tid : Nat) (k : Bytes) (e : ErrKind),
        (World.stepE s (Op.del tid k)).2 = some e → (World.stepE s (Op.del tid k)).1 = s) := by
  refine ⟨?_, ?_, ?_, ?_, ?_⟩
  · intro e
    cases e
    · exact Or.inl rfl
    · exact Or.inr (Or.inl rfl)
    · exact Or.inr (Or.inr (Or.inl rfl))
    · exact Or.inr (Or.inr (Or.inr (Or.inl rfl)))
    · exact Or.inr (Or.inr (Or.inr (Or.inr rfl)))
  · decide
  · intro s op e he
    cases op with
    | beginTxn tid => simp [World.stepE] at he
    | put tid k v =>
      cases hx : s.txns tid with
      | none => simp [World.stepE, hx]
      | some txn =>
        by_cases hs2 : txn.status = TxnStatus.active
        · simp [World.stepE, hx, hs2] at he
        · simp [World.stepE, hx, hs2]
    | del tid k =>
      cases hx : s.txns tid with
      | none => simp [World.stepE, hx]
      | some txn =>
        by_cases hs2 : txn.status = TxnStatus.active
        · simp [World.stepE, hx, hs2] at he
        · simp [World.stepE, hx, hs2]
    | commitTxn tid f =>
      cases hx : s.txns tid with
      | none => simp [World.stepE, hx]
      | some txn =>
        by_cases hs2 : txn.status = TxnStatus.active
        · cases f with
          | true => simp [World.stepE, hx, hs2] at he
          | false =>
            constructor
            · simp [World.stepE, hx, hs2]
            · intro fb
              simp [World.stepE, hx, hs2, replay, List.foldl_append]
        · simp [World.stepE, hx, hs2]
    | abortTxn tid =>
      cases hx : s.txns tid with
      | none => simp [World.stepE, hx]
      | some txn =>
        by_cases hs2 : txn.status = TxnStatus.active
        · simp [World.stepE, hx, hs2] at he
        · simp [World.stepE, hx, hs2]
  · intro s tid k v e he
    cases hx : s.txns tid with
    | none => simp [World.stepE, hx]
    | some txn =>
      by_cases hs2 : txn.status = TxnStatus.active
      · simp [World.stepE, hx, hs2] at he
      · simp [World.stepE, hx, hs2]
  · intro s tid k e he
    cases hx : s.txns tid with
    | none => simp [World.stepE, hx]
    | some txn =>
      by_cases hs2 : txn.status = TxnStatus.active
      · simp [World.stepE, hx, hs2] at he
      · simp [World.stepE, hx, hs2]

/-- C7 (amended): once `iterNext` would yield a key at or beyond a nonempty
end key it reports Exhausted and the cursor enters the exhausted state;
every further `iterNext` on an exhausted cursor fails with InvalidState
and leaves the cursor unchanged, so a cursor never yields another pair
after first reporting Exhausted. -/
theorem spec_C7 :
    (∀ (c : Cursor) (k v : Bytes) (rest : List (Bytes × Bytes)),
        c.state = CursorState.live → c.entries = (k, v) :: rest →
        inEnd c.endKey k = false →
        iterNext c = (⟨c.entries, c.endKey, CursorState.exhausted⟩, IterResult.exhausted))
    ∧ (∀ (c c2 : Cursor) (r : IterResult),
        iterNext c = (c2, r) → r = IterResult.exhausted → c2.state = CursorState.exhausted)
    ∧ (∀ c : Cursor, c.state = CursorState.exhausted →
        iterNext c = (c, IterResult.err ErrKind.invalidState)) := by
  refine ⟨?_, ?_, ?_⟩
  · intro c k v rest hlive hent hend
    simp [iterNext, hlive, hent, hend]
  · intro c c2 r hn hr
    subst hr
    cases hst : c.state with
    | closed => simp [iterNext, hst] at hn
    | exhausted => simp [iterNext, hst] at hn
    | live =>
      cases hent : c.entries with
      | nil =>
        simp only [iterNext, hst, hent] at hn
        rw [Prod.mk.injEq] at hn
        rw [← hn.1]
      | cons e rest2 =>
        obtain ⟨k, v⟩ := e
        by_cases hq : inEnd c.endKey k = true
        · simp [iterNext, hst, hent, hq] at hn
        · simp only [Bool.not_eq_true] at hq
          simp only [iterNext, hst, hent, hq, Bool.false_eq_true, if_false] at hn
          rw [Prod.mk.injEq] at hn
          rw [← hn.1]
  · intro c hst
    simp [iterNext, hst]

/-- C8: commit or abort on a transaction handle already in a terminal state
(committed or aborted) fails with InvalidState and leaves the world
entirely unchanged, and `iterNext` on a closed or exhausted cursor fails
with InvalidState and leaves the cursor unchanged, so handle-level misuse
never corrupts engine state. -/
theorem spec_C8 :
    (∀ (s : World) (tid : Nat) (txn : Txn) (f : Bool),
        s.txns tid = some txn →
        (txn.status = TxnStatus.committed ∨ txn.status = TxnStatus.aborted) →
        World.stepE s (Op.commitTxn tid f) = (s, some ErrKind.invalidState)
        ∧ World.stepE s (Op.abortTxn tid) = (s, some ErrKind.invalidState))
    ∧ (∀ c : Cursor, c.state = CursorState.closed ∨ c.state = CursorState.exhausted →
        iterNext c = (c, IterResult.err ErrKind.invalidState)) := by
  constructor
  · intro s tid txn f hx hterm
    have hs2 : ¬ txn.status = TxnStatus.active := by
      cases hterm with
      | inl h => rw [h]; simp
      | inr h => rw [h]; simp
    constructor
    · simp [World.stepE, hx, hs2]
    · simp [World.stepE, hx, hs2]
  · intro c hc
    cases hc with
    | inl h => simp [iterNext, h]
    | inr h => simp [iterNext, h]

/-- C10: the three boundary status codes are the pairwise-distinct values
0, -1 and 1; every return code of `pgz_get`, `pgz_put`, `pgz_delete`,
`pgz_txn_commit` and `pgz_iter_next` is exactly one of them; and the
single code `PGZ_NOT_FOUND` is returned both by `pgz_get` for an absent
key and by `pgz_iter_next` for iterator exhaustion, so a caller cannot
tell the two conditions apart by return code alone. -/
theorem spec_C10 :
    (PGZ_OK = 0 ∧ PGZ_ERR = -1 ∧ PGZ_NOT_FOUND = 1)
    ∧ (PGZ_OK ≠ PGZ_ERR ∧ PGZ_OK ≠ PGZ_NOT_FOUND ∧ PGZ_ERR ≠ PGZ_NOT_FOUND)
    ∧ (∀ (s : World) (tid : Nat) (k : Bytes),
        World.get s tid k = Except.error ErrKind.notFound →
        (pgz_get s tid k).1 = PGZ_NOT_FOUND)
    ∧ (∀ c : Cursor, (iterNext c).2 = IterResult.exhausted →
        (pgz_iter_next c).2 = PGZ_NOT_FOUND)
    ∧ (∀ (s : World) (tid : Nat) (k : Bytes),
        (pgz_get s tid k).1 = PGZ_OK ∨ (pgz_get s tid k).1 = PGZ_ERR
        ∨ (pgz_get s tid k).1 = PGZ_NOT_FOUND)
    ∧ (∀ (s : World) (tid : Nat) (k v : Bytes),
        pgz_put s tid k v = PGZ_OK ∨ pgz_put s tid k v = PGZ_ERR
        ∨ pgz_put s tid k v = PGZ_NOT_FOUND)
    ∧ (∀ (s : World) (tid : Nat) (k : Bytes),
        pgz_delete s tid k = PGZ_OK ∨ pgz_delete s tid k = PGZ_ERR
        ∨ pgz_delete s tid k = PGZ_NOT_FOUND)
    ∧ (∀ (s : World) (tid : Nat) (f : Bool),
        pgz_txn_commit s tid f = PGZ_OK ∨ pgz_txn_commit s tid f = PGZ_ERR
        ∨ pgz_txn_commit s tid f = PGZ_NOT_FOUND)
    ∧ (∀ c : Cursor,
        (pgz_iter_next c).2 = PGZ_OK ∨ (pgz_iter_next c).2 = PGZ_ERR
        ∨ (pgz_iter_next c).2 = PGZ_NOT_FOUND) := by
  refine ⟨⟨rfl, rfl, rfl⟩, ⟨by decide, by decide, by decide⟩, ?_, ?_, ?_, ?_, ?_, ?_, ?_⟩
  · intro s tid k hk
    simp [pgz_get, hk]
  · intro c hc
    simp only [pgz_iter_next]
    cases hn : iterNext c with
    | mk c2 r =>
      rw [hn] at hc
      simp only at hc
      subst hc
      rfl
  · intro s tid k
    cases hk : World.get s tid k with
    | ok v => exact Or.inl (by simp [pgz_get, hk])
    | error e =>
      cases e with
      | notFound => exact Or.inr (Or.inr (by simp [pgz_get, hk]))
      | ioError => exact Or.inr (Or.inl (by simp [pgz_get, hk]))
      | conflict => exact Or.inr (Or.inl (by simp [pgz_get, hk]))
      | invalidState => exact Or.inr (Or.inl (by simp [pgz_get, hk]))
      | corruption => exact Or.inr (Or.inl (by simp [pgz_get, hk]))
  · intro s tid k v
    cases hr : (World.stepE s (Op.put tid k v)).2 with
    | none => exact Or.inl (by simp [pgz_put, hr])
    | some e => exact Or.inr (Or.inl (by simp [pgz_put, hr]))
  · intro s tid k
    cases hr : (World.stepE s (Op.del tid k)).2 with
    | none => exact Or.inl (by simp [pgz_delete, hr])
    | some e => exact Or.inr (Or.inl (by simp [pgz_delete, hr]))
  · intro s tid f
    cases hr : (World.stepE s (Op.commitTxn tid f)).2 with
    | none => exact Or.inl (by simp [pgz_txn_commit, hr])
    | some e => exact Or.inr (Or.inl (by simp [pgz_txn_commit, hr]))
  · intro c
    cases hn : iterNext c with
    | mk c2 r =>
      cases r with
      | ok k v => exact Or.inl (by simp [pgz_iter_next, hn])
      | exhausted => exact Or.inr (Or.inr (by simp [pgz_iter_next, hn]))
      | err e => exact Or.inr (Or.inl (by simp [pgz_iter_next, hn]))

/-- C2 witness: after a writer begins, puts and commits, the reader begun
beforehand still reads the empty pre-commit root. -/
theorem spec_C2_witness :
    (∀ op ∈ ops0, opTid op ≠ 0)
    ∧ World.get (ops0.foldl World.step (World.step W0 (Op.beginTxn 0))) 0 [97]
        = lookupExcept W0.db.root [97] :=
  ⟨by decide, (spec_C2 W0 0 ops0 [97] [] [] (by decide)).2.1⟩

/-- C3 counterexample: with the empty end key the scan is unbounded, so it
yields the key "a" even though "a" is not lexicographically below the
empty end key — refuting, at this concrete input, that every yielded key
is strictly below the end key for arbitrary byte-string bounds. -/
theorem spec_C3_counterexample :
    scanTxn txn0 [] [] = some cU
    ∧ collectIter 1 cU = [([97], [49])]
    ∧ bytesLt [97] [] = false := by decide

/-- C3 witness: scanning txn0's snapshot over the bounded range returns the
single in-range entry. -/
theorem spec_C3_witness :
    Store.Sorted txn0.snapshot
    ∧ scanTxn txn0 [] [98] = some c0
    ∧ c0.entries.length ≤ 1
    ∧ ∀ e ∈ txn0.snapshot, bytesLe [] e.1 = true → inEnd [98] e.1 = true →
        e ∈ collectIter 1 c0 :=
  ⟨by unfold Store.Sorted; decide, by decide, by decide,
    (spec_C3 txn0 [] [98] c0 1 (by unfold Store.Sorted; decide) (by decide) (by decide)).2.2.2⟩

/-- C4 witness: put and delete by transaction 3 followed by abort leave a
fresh reader's get over the empty database unchanged. -/
theorem spec_C4_witness :
    (∀ op ∈ ops1, isPutOrDel op = true ∧ opTid op = 3)
    ∧ World.get
        (World.step
          (World.step (ops1.foldl World.step (World.step W0 (Op.beginTxn 3)))
            (Op.abortTxn 3))
          (Op.beginTxn 4)) 4 [97]
        = World.get (World.step W0 (Op.beginTxn 4)) 4 [97] :=
  ⟨by decide, (spec_C4 W0 3 4 [97] ops1 (by decide)).2⟩

/-- C5 witness: a flush failure while committing the active transaction 0
reports IOError and leaves the published root unchanged. -/
theorem spec_C5_witness :
    W1.txns 0 = some ⟨[], [], TxnStatus.active⟩
    ∧ (World.stepE W1 (Op.commitTxn 0 false)).2 = some ErrKind.ioError
    ∧ ((World.stepE W1 (Op.commitTxn 0 false)).1).db.root = W1.db.root :=
  ⟨by decide, (spec_C5 W1 0 ⟨[], [], TxnStatus.active⟩ (by decide) rfl).1,
    (spec_C5 W1 0 ⟨[], [], TxnStatus.active⟩ (by decide) rfl).2.1⟩

/-- C6 witness: a put on a missing transaction handle reports an error and
leaves the world entirely unchanged. -/
theorem spec_C6_witness :
    (World.stepE W0 (Op.put 0 [] [])).2 = some ErrKind.invalidState
    ∧ (World.stepE W0 (Op.put 0 [] [])).1 = W0 :=
  ⟨by decide, spec_C6.2.2.2.1 W0 0 [] [] ErrKind.invalidState (by decide)⟩

/-- C7 counterexample: after the cursor whose next key "b" lies beyond the
end key "a" first reports Exhausted, the following `iterNext` reports
InvalidState, not Exhausted — refuting, at this concrete input, that every
further call reports Exhausted. -/
theorem spec_C7_counterexample :
    (iterNext cB).2 = IterResult.exhausted
    ∧ (iterNext (iterNext cB).1).2 = IterResult.err ErrKind.invalidState
    ∧ IterResult.err ErrKind.invalidState ≠ IterResult.exhausted := by decide

/-- C7 witness: the bounded cursor reports Exhausted and enters the
exhausted state; `iterNext` on an exhausted cursor fails with InvalidState
and leaves it unchanged. -/
theorem spec_C7_witness :
    iterNext cB = (⟨cB.entries, cB.endKey, CursorState.exhausted⟩, IterResult.exhausted)
    ∧ iterNext cX = (cX, IterResult.err ErrKind.invalidState) :=
  ⟨spec_C7.1 cB [98] [50] [] rfl rfl (by decide), spec_C7.2.2 cX rfl⟩

/-- C8 witness: commit and abort on the already-committed transaction 0
fail with InvalidState and change nothing, as does `iterNext` on a closed
cursor. -/
theorem spec_C8_witness :
    Wc.txns 0 = some ⟨[], [], TxnStatus.committed⟩
    ∧ World.stepE Wc (Op.commitTxn 0 true) = (Wc, some ErrKind.invalidState)
    ∧ World.stepE Wc (Op.abortTxn 0) = (Wc, some ErrKind.invalidState)
    ∧ iterNext cC = (cC, IterResult.err ErrKind.invalidState) :=
  ⟨by decide,
    (spec_C8.1 Wc 0 ⟨[], [], TxnStatus.committed⟩ true (by decide) (Or.inl rfl)).1,
    (spec_C8.1 Wc 0 ⟨[], [], TxnStatus.committed⟩ true (by decide) (Or.inl rfl)).2,
    spec_C8.2 cC (Or.inl rfl)⟩

/-- C10 witness: get of an absent key and `iterNext` at exhaustion both
return the status code `PGZ_NOT_FOUND`. -/
theorem spec_C10_witness :
    World.get W1 0 [97] = Except.error ErrKind.notFound
    ∧ (pgz_get W1 0 [97]).1 = PGZ_NOT_FOUND
    ∧ (iterNext cL).2 = IterResult.exhausted
    ∧ (pgz_iter_next cL).2 = PGZ_NOT_FOUND :=
  ⟨rfl, spec_C10.2.2.1 W1 0 [97] rfl, by decide,
    spec_C10.2.2.2.1 cL (by decide)⟩
